import Mathlib

/-!
Shallow embedding of the `reportcard` terminal-dashboard component of the
verapack repository (`src/internal/components/reportcard/reportcard.go`),
together with theorems checking the natural-language specification against it.

Modelling conventions:
* Go slices become `List`; Go `int` indices that are provably nonnegative in
  every reachable state (`activeTaskIndex`) become `Nat`, sentinel-carrying
  indices (`defaultTaskIndex`, `selectedTaskIndex`, message row index) stay
  `Int`.
* Go's `map[RowStatus]int` becomes the function `RowStatus → Option Int`
  (`none` = key absent, matching `delete` / comma-ok semantics).
* The `Output any` payload is modelled as `Option String` (`nil` = `none`);
  only presence is ever inspected by the code under study.
* A Go slice access `xs[i]` panics when out of range; in the row-level
  functions every access is guarded by reachable-state invariants, and the
  embedding uses `List.getD` / no-op `modifyNth` there.  The one *unguarded*
  access, `m.rows[msg.Index]` in `Model.Update`, is modelled explicitly:
  `Model.updateTaskResult` returns `Option`, with `none` denoting the
  runtime panic.
* `lipgloss.Position` (a purely cosmetic float64 alignment hint inside
  `CustomTaskStatus`) is omitted: no logic reads it.
-/

namespace Reportcard

/-- Task statuses, `const` block of reportcard.go (iota order 0..5). -/
inductive TaskStatus where
  | NotStarted
  | Success
  | Warning
  | InProgress
  | Failure
  | Skip
deriving DecidableEq, Repr

/-- Row statuses, `const` block of reportcard.go (iota order 0..6). -/
inductive RowStatus where
  | RowLoading
  | RowUserPrompt
  | RowNotStarted
  | RowStarted
  | RowSuccess
  | RowWarning
  | RowFailure
deriving DecidableEq, Repr

/-- The integer value of each `RowStatus` constant in the Go `const`/iota
block (`RowLoading RowStatus = iota`, ...).  `updateStatusCounts` compares
statuses against the literal `0`, i.e. against `RowLoading`. -/
def RowStatus.toGoInt : RowStatus → Int
  | .RowLoading => 0
  | .RowUserPrompt => 1
  | .RowNotStarted => 2
  | .RowStarted => 3
  | .RowSuccess => 4
  | .RowWarning => 5
  | .RowFailure => 6

/-- `CustomTaskStatus` (alignment hint omitted, see module docstring). -/
structure CustomTaskStatus where
  message : String
  foregroundColour : String
deriving DecidableEq, Repr

/-- `TaskResultMsg`: one task-completion event from an external worker. -/
structure TaskResultMsg where
  status : TaskStatus
  index : Int
  customSuccessStatus : CustomTaskStatus
  output : Option String
  viewportName : String
  forceDefault : Bool
deriving DecidableEq, Repr

/-- `Task`: one step/column of a row. -/
structure Task where
  status : TaskStatus
  name : String
  shouldRunAnywayFor : List String
  hasOutput : Bool
  viewportName : String
  viewportInputData : Option String
  customSuccessStatus : CustomTaskStatus
deriving DecidableEq, Repr

/-- Go zero value of `Task` (status 0 = NotStarted, empty strings/nil). -/
instance : Inhabited Task :=
  ⟨⟨.NotStarted, "", [], false, "", none, ⟨"", ""⟩⟩⟩

/-- `Row`: ordered tasks plus aggregate state.  (`columnsReference`,
`message`, `promptUser`, `rowLevelLoading` are construction-time /
unimplemented fields that no function under study reads; omitted.) -/
structure Row where
  name : String
  tasks : List Task
  activeTaskIndex : Nat
  defaultTaskIndex : Int
  selectedTaskIndex : Int
  status : RowStatus
  prefixValues : List String
deriving DecidableEq, Repr

/-- In-place update of the element at index `n`; out-of-range is a no-op
(the Go originals only index within bounds in reachable states). -/
def modifyNth (f : Task → Task) : Nat → List Task → List Task
  | _, [] => []
  | 0, t :: ts => f t :: ts
  | n + 1, t :: ts => t :: modifyNth f n ts

/-- Index of the first task with status `NotStarted` (the `for k` scan in
`Row.start`). -/
def findFirstNotStarted : List Task → Option Nat
  | [] => none
  | t :: ts =>
    if t.status = TaskStatus.NotStarted then some 0
    else (findFirstNotStarted ts).map (· + 1)

/-- `Row.start` (reportcard.go lines 115-136): scan for the first
`NotStarted` task, set it `InProgress` and remember it as active; the row
becomes `RowStarted` if such a task exists, `RowSuccess` otherwise.  Does
nothing unless the row is `RowNotStarted`. -/
def Row.start (r : Row) : Row :=
  if r.status ≠ RowStatus.RowNotStarted then r
  else
    match findFirstNotStarted r.tasks with
    | some k =>
      { r with
        activeTaskIndex := k
        tasks := modifyNth (fun t => { t with status := TaskStatus.InProgress }) k r.tasks
        status := RowStatus.RowStarted }
    | none => { r with status := RowStatus.RowSuccess }

/-- Status of `r.tasks[r.defaultTaskIndex]`; only evaluated by the source
after checking `defaultTaskIndex ≥ 0`, and the index is always in range in
reachable states. -/
def Row.defaultTaskStatus (r : Row) : TaskStatus :=
  (r.tasks.getD r.defaultTaskIndex.toNat default).status

/-- `Row.setDefaultDisplayTask` (lines 265-283): choose which task's output
is shown first when entering the row. -/
def Row.setDefaultDisplayTask (r : Row) (taskIndex : Nat) (msg : TaskResultMsg) : Row :=
  if msg.forceDefault then { r with defaultTaskIndex := (taskIndex : Int) }
  else if r.defaultTaskIndex < 0 ∨ r.defaultTaskStatus = TaskStatus.Success then
    { r with defaultTaskIndex := (taskIndex : Int) }
  else if (msg.status = TaskStatus.Failure ∨ msg.status = TaskStatus.Warning) ∧
      ¬r.defaultTaskStatus = TaskStatus.Failure ∧ ¬r.defaultTaskStatus = TaskStatus.Warning then
    { r with defaultTaskIndex := (taskIndex : Int) }
  else r

/-- The advance scan of `Row.update` for a non-`Failure` result (the `else`
arm of the `for k` loop, lines 186-191): the first `NotStarted` task becomes
`InProgress` and the loop `break`s.  Returns the rewritten suffix
`tasks[activeTaskIndex+1:]` and the offset of the task that was started,
if any. -/
def advanceNonFailure : List Task → List Task × Option Nat
  | [] => ([], none)
  | t :: ts =>
    if t.status = TaskStatus.NotStarted then
      ({ t with status := TaskStatus.InProgress } :: ts, some 0)
    else
      (t :: (advanceNonFailure ts).1, (advanceNonFailure ts).2.map (· + 1))

/-- The advance scan of `Row.update` for a `Failure` result (lines 175-185).
`activeName` is `r.tasks[r.activeTaskIndex].name`; note that the Go loop
reassigns `r.activeTaskIndex` when it starts a run-anyway task and does NOT
break, so later membership tests (`canTaskRunAnyway`) are against the most
recently started task's name.  Returns the rewritten suffix and the offset
of the LAST task set `InProgress`, if any (the final `activeTaskIndex`). -/
def advanceFailure (activeName : String) : List Task → List Task × Option Nat
  | [] => ([], none)
  | t :: ts =>
    if t.status = TaskStatus.NotStarted then
      if activeName ∈ t.shouldRunAnywayFor then
        -- canTaskRunAnyway: the task may run despite the failure.  The loop
        -- does not break here; it continues with the new active task's name.
        ({ t with status := TaskStatus.InProgress } :: (advanceFailure t.name ts).1,
          some ((advanceFailure t.name ts).2.elim 0 (· + 1)))
      else
        ({ t with status := TaskStatus.Skip } :: (advanceFailure activeName ts).1,
          (advanceFailure activeName ts).2.map (· + 1))
    else
      (t :: (advanceFailure activeName ts).1, (advanceFailure activeName ts).2.map (· + 1))

/-- The end-of-row status scan of `Row.update` (lines 196-209): the first
task whose status is `Failure` or `Warning` decides the row status; if none,
the row is `RowSuccess`. -/
def finalScan : List Task → RowStatus
  | [] => RowStatus.RowSuccess
  | t :: ts =>
    if t.status = TaskStatus.Failure then RowStatus.RowFailure
    else if t.status = TaskStatus.Warning then RowStatus.RowWarning
    else finalScan ts

/-- Lines 156-166 of `Row.update`: write the event's result into the active
task (status, then custom success styling on `Success`, then the output
payload), and re-derive the default display task when the event carries an
output payload. -/
def Row.applyResult (r : Row) (msg : TaskResultMsg) : Row :=
  let setStatus : Task → Task := fun t => { t with status := msg.status }
  let setCustom : Task → Task := fun t => { t with customSuccessStatus := msg.customSuccessStatus }
  let setOutput : Task → Task := fun t => { t with hasOutput := true, viewportInputData := msg.output }
  let r1 := { r with tasks := modifyNth setStatus r.activeTaskIndex r.tasks }
  let r2 :=
    if msg.status = TaskStatus.Success then
      { r1 with tasks := modifyNth setCustom r1.activeTaskIndex r1.tasks }
    else r1
  if msg.output ≠ none then
    Row.setDefaultDisplayTask
      { r2 with tasks := modifyNth setOutput r2.activeTaskIndex r2.tasks }
      r2.activeTaskIndex msg
  else r2

/-- `r.tasks[r.activeTaskIndex].name`, the name `canTaskRunAnyway` compares
against at the start of the advance scan. -/
def Row.activeName (r : Row) : String :=
  (r.tasks.getD r.activeTaskIndex default).name

/-- The advance scan of `Row.update` (lines 168-192) over the suffix
`tasks[activeTaskIndex+1:]`, selected by whether the just-finished task
failed. -/
def Row.scanSuffix (r : Row) (msg : TaskResultMsg) : List Task × Option Nat :=
  if msg.status = TaskStatus.Failure then
    advanceFailure r.activeName (r.tasks.drop (r.activeTaskIndex + 1))
  else
    advanceNonFailure (r.tasks.drop (r.activeTaskIndex + 1))

/-- `Row.update` (lines 140-214).  Returns
`(PrevRowStatus, CurRowStatus, updated row)`. -/
def Row.update (r : Row) (msg : TaskResultMsg) : RowStatus × RowStatus × Row :=
  if r.status ≠ RowStatus.RowStarted then
    -- Can't send updates to a finished or not started row.
    (r.status, r.status, r)
  else if msg.status = TaskStatus.InProgress ∨ msg.status = TaskStatus.NotStarted then
    -- Guard against weird or unintended behaviours.
    (r.status, r.status, r)
  else
    let r3 := r.applyResult msg
    let scanned := r3.scanSuffix msg
    let tasksOut := r3.tasks.take (r3.activeTaskIndex + 1) ++ scanned.1
    match scanned.2 with
    | some off =>
      -- rowNotDone: a new task was started, the row stays RowStarted.
      (r.status, r3.status, { r3 with tasks := tasksOut, activeTaskIndex := r3.activeTaskIndex + 1 + off })
    | none =>
      -- Row is done, there are no more tasks to run.
      (r.status, finalScan tasksOut, { r3 with tasks := tasksOut, status := finalScan tasksOut })

/-- `Row.hasOutputToDisplay` (lines 286-289). -/
def Row.hasOutputToDisplay (r : Row) : Bool :=
  decide (0 ≤ r.defaultTaskIndex)

/-- `Row.setSelected` (lines 225-231). -/
def Row.setSelected (r : Row) : Row :=
  if ¬r.hasOutputToDisplay then r
  else { r with selectedTaskIndex := r.defaultTaskIndex }

/-- Number of tasks currently `InProgress` (used to state the at-most-one
invariant of the spec). -/
def countInProgress (ts : List Task) : Nat :=
  (ts.filter (fun t => t.status = TaskStatus.InProgress)).length

/-- Spec-side helper: the status of the first task (in column order) whose
status is `Failure` or `Warning`, if any.  Used to phrase the amended final
row status policy independently of `finalScan`. -/
def firstOffending : List Task → Option TaskStatus
  | [] => none
  | t :: ts =>
    if t.status = TaskStatus.Failure ∨ t.status = TaskStatus.Warning then some t.status
    else firstOffending ts

/-- `Column` (width is cosmetic but carried for fidelity). -/
structure Column where
  width : Int
  name : String
deriving DecidableEq, Repr

/-- Go zero value of `Row` (status 0 = RowLoading, ints 0, nil slices). -/
instance : Inhabited Row :=
  ⟨⟨"", [], 0, 0, 0, RowStatus.RowLoading, []⟩⟩

/-- `m.statusCounts[s] = v` (present). -/
def setCount (c : RowStatus → Option Int) (s : RowStatus) (v : Int) : RowStatus → Option Int :=
  fun u => if u = s then some v else c u

/-- `delete(m.statusCounts, s)`. -/
def eraseCount (c : RowStatus → Option Int) (s : RowStatus) : RowStatus → Option Int :=
  fun u => if u = s then none else c u

/-- `Model.updateStatusCounts` (lines 649-663): bump `addStatus` by one
(missing key reads as 0) and decrement `removeStatus`, deleting the key
when the decremented value would not be positive.  The Go code guards both
steps with a comparison against the literal `0`, which as a `RowStatus` is
`RowLoading`. -/
def updateStatusCounts (c : RowStatus → Option Int) (addStatus removeStatus : RowStatus) :
    RowStatus → Option Int :=
  let c1 :=
    if addStatus.toGoInt ≠ 0 then setCount c addStatus ((c addStatus).getD 0 + 1) else c
  if removeStatus.toGoInt ≠ 0 then
    match c1 removeStatus with
    | some v => if v - 1 > 0 then setCount c1 removeStatus (v - 1) else eraseCount c1 removeStatus
    | none => c1
  else c1

/-- The dashboard `Model`; only the fields read or written by the logic
under study are embedded (key maps, styles, spinner, viewport and terminal
dimensions are rendering state no claim depends on). -/
structure Model where
  rows : List Row
  selectedRow : Nat
  taskColumns : List Column
  prefixColumns : List Column
  pageSize : Int
  pageCurrentStart : Int
  pageCurrentEnd : Int
  statusCounts : RowStatus → Option Int

/-- The `TaskResultMsg` arm of `Model.Update` (lines 627-637).  The source
indexes `m.rows[msg.Index]` without a bounds check, so an out-of-range
index is a Go runtime panic; the embedding returns `none` for it.
(`SetActiveKeys` only toggles key-binding enablement, which is not an
embedded field.) -/
def Model.updateTaskResult (m : Model) (msg : TaskResultMsg) : Option Model :=
  if msg.index < 0 ∨ (m.rows.length : Int) ≤ msg.index then none
  else
    let i := msg.index.toNat
    let res := (m.rows.getD i default).update msg
    let m1 := { m with
      rows := m.rows.set i res.2.2
      statusCounts := updateStatusCounts m.statusCounts res.2.1 res.1 }
    if msg.index = (m.selectedRow : Int) then
      some { m1 with rows := m1.rows.set i (m1.rows.getD i default).setSelected }
    else
      some m1

/-- The `Option` constructors of reportcard.go (the Go type is named
`Option`; renamed here to avoid clashing with Lean's `Option`).  Styles,
spinner, key maps, help and viewport dimensions only write fields outside
the embedded `Model`, so their application is the identity on it. -/
inductive ModelOption where
  | withTasks (cols : List Column)
  | withPrefixColumns (cols : List Column)
  | withData (rows : List Row)
  | withStyles
  | withSpinner
  | withKeyMap
  | withPageSize (pageSize : Int)
  | withRowKeyMap
  | withViewportDimensions
  | withHelp
deriving DecidableEq

/-- Application of one option to the model under construction.
`WithPageSize` stores `int(math.Max(float64(pageSize), 1))` = `max pageSize 1`
(line 1093).  (`WithData` also enlarges the cosmetic `nameColumnWidth`,
which is not embedded.) -/
def applyOption (m : Model) : ModelOption → Model
  | .withTasks cols => { m with taskColumns := cols }
  | .withPrefixColumns cols => { m with prefixColumns := cols }
  | .withData rows => { m with rows := rows }
  | .withPageSize p => { m with pageSize := max p 1 }
  | _ => m

/-- `NewModel` (lines 473-507): defaults, option application, initial page
window, then `start()` on every row while seeding the status counts with
`updateStatusCounts(row.status, 0)` (the literal `0` is `RowLoading`, whose
guard skips the remove step).  `validateData`'s configuration panic and the
spinner default are outside the embedded fields. -/
def NewModel (opts : List ModelOption) : Model :=
  let m0 : Model :=
    { rows := [], selectedRow := 0, taskColumns := [], prefixColumns := [],
      pageSize := 6, pageCurrentStart := 0, pageCurrentEnd := 0,
      statusCounts := fun _ => none }
  let m1 := opts.foldl applyOption m0
  let m2 := { m1 with
    pageCurrentEnd := min (m1.pageCurrentStart + m1.pageSize - 1) ((m1.rows.length : Int) - 1) }
  let startedRows := m2.rows.map Row.start
  { m2 with
    rows := startedRows
    statusCounts := startedRows.foldl
      (fun c r => updateStatusCounts c r.status RowStatus.RowLoading) m2.statusCounts }

/-- `GetPaginationDetails` (lines 994-1000).  The Go source computes the two
ceilings through `float64` division and `math.Ceil`; for the nonnegative
machine integers in play that is exact ceiling division, embedded as
`(a + b - 1) / b` on `Nat`.  Returns
`(numPages, currentPage, pageStartIndex, pageEndIndex)`. -/
def GetPaginationDetails (totalElements elementsPerPage currentElementIndex : Nat) :
    Nat × Nat × Nat × Nat :=
  let numPages := (totalElements + elementsPerPage - 1) / elementsPerPage
  let pageStartIndex := currentElementIndex / elementsPerPage * elementsPerPage
  let pageEndIndex := min (pageStartIndex + elementsPerPage - 1) (totalElements - 1)
  let currentPage := (pageStartIndex + elementsPerPage - 1) / elementsPerPage
  (numPages, currentPage, pageStartIndex, pageEndIndex)

/-- `n` task-result events each of which moves one row from `RowStarted` to
`RowFailure`: every such event makes `Model.updateTaskResult` call
`updateStatusCounts` with `addStatus = RowFailure`, `removeStatus =
RowStarted`. -/
def iterateStartedToFailure : Nat → (RowStatus → Option Int) → RowStatus → Option Int
  | 0, c => c
  | n + 1, c => updateStatusCounts (iterateStartedToFailure n c) RowStatus.RowFailure RowStatus.RowStarted

/-- Modelled from the spec (claim C3's reading of the Failure advance scan):
each subsequent `NotStarted` task whose `shouldRunAnywayFor` contains the
name of *the task that just failed* becomes `InProgress` and scanning STOPS
there; other `NotStarted` tasks become `Skip` and scanning continues.  This
is the claim's semantics, written to be compared against `advanceFailure`. -/
def specFailureScan (failedName : String) : List Task → List Task × Option Nat
  | [] => ([], none)
  | t :: ts =>
    if t.status = TaskStatus.NotStarted then
      if failedName ∈ t.shouldRunAnywayFor then
        ({ t with status := TaskStatus.InProgress } :: ts, some 0)
      else
        ({ t with status := TaskStatus.Skip } :: (specFailureScan failedName ts).1,
          (specFailureScan failedName ts).2.map (· + 1))
    else
      (t :: (specFailureScan failedName ts).1, (specFailureScan failedName ts).2.map (· + 1))

/-- An all-default task with the given name, run-anyway set and status
(used for the concrete counterexample and witness inputs below). -/
def mkTask (n : String) (runFor : List String) : Task :=
  { status := TaskStatus.NotStarted, name := n, shouldRunAnywayFor := runFor,
    hasOutput := false, viewportName := "", viewportInputData := none,
    customSuccessStatus := ⟨"", ""⟩ }

/-- A bare task-result event with the given status and row index. -/
def mkMsg (s : TaskStatus) (i : Int) : TaskResultMsg :=
  { status := s, index := i, customSuccessStatus := ⟨"", ""⟩, output := none,
    viewportName := "", forceDefault := false }

/-- A fresh row (as `NewRow` would build it) over the given tasks. -/
def mkRow (ts : List Task) : Row :=
  { name := "app", tasks := ts, activeTaskIndex := 0, defaultTaskIndex := -1,
    selectedTaskIndex := -1, status := RowStatus.RowNotStarted, prefixValues := [] }

/-- Two plain tasks; used to exercise the end-of-row status scan. -/
def c1Row : Row := mkRow [mkTask "t1" [], mkTask "t2" []]

/-- The row of `c1Row` after start, a `Warning` for t1 and a `Failure` for
t2: both tasks are finished and the row is complete. -/
def c1Final : Row :=
  ((((c1Row.start).update (mkMsg TaskStatus.Warning 0)).2.2).update
    (mkMsg TaskStatus.Failure 0)).2.2

/-- Three tasks with a run-anyway chain: t2 runs anyway for t1, t3 runs
anyway for t2. -/
def c2Row : Row := mkRow [mkTask "t1" [], mkTask "t2" ["t1"], mkTask "t3" ["t2"]]

/-- Three tasks where only t2 runs anyway for t1. -/
def c3Row : Row := mkRow [mkTask "t1" [], mkTask "t2" ["t1"], mkTask "t3" []]

/-- A dashboard with exactly one row. -/
def c4Model : Model :=
  { rows := [mkRow [mkTask "t1" []]], selectedRow := 0, taskColumns := [],
    prefixColumns := [], pageSize := 6, pageCurrentStart := 0, pageCurrentEnd := 0,
    statusCounts := fun _ => none }

/-- A count map with two Started rows and zero Failure rows. -/
def cW : RowStatus → Option Int := fun u =>
  if u = RowStatus.RowStarted then some 2
  else if u = RowStatus.RowFailure then some 0
  else none

/-! ### Helper lemmas -/

theorem modifyNth_length (f : Task → Task) (n : Nat) (ts : List Task) :
    (modifyNth f n ts).length = ts.length := by
  induction ts generalizing n with
  | nil => simp [modifyNth]
  | cons t ts ih =>
    cases n with
    | zero => rfl
    | succ n => simp [modifyNth, ih]

theorem get?_modifyNth_self (f : Task → Task) (n : Nat) (ts : List Task) :
    (modifyNth f n ts).get? n = (ts.get? n).map f := by
  induction ts generalizing n with
  | nil => simp [modifyNth]
  | cons t ts ih =>
    cases n with
    | zero => rfl
    | succ n => simpa [modifyNth] using ih n

theorem get?_modifyNth_ne (f : Task → Task) {k n : Nat} (ts : List Task) (h : k ≠ n) :
    (modifyNth f n ts).get? k = ts.get? k := by
  induction ts generalizing n k with
  | nil => simp [modifyNth]
  | cons t ts ih =>
    cases n with
    | zero =>
      cases k with
      | zero => exact absurd rfl h
      | succ k => rfl
    | succ n =>
      cases k with
      | zero => rfl
      | succ k => simpa [modifyNth] using ih (k := k) (n := n) (by omega)

theorem modifyNth_drop_succ (f : Task → Task) (n : Nat) (ts : List Task) :
    (modifyNth f n ts).drop (n + 1) = ts.drop (n + 1) := by
  induction ts generalizing n with
  | nil => simp [modifyNth]
  | cons t ts ih =>
    cases n with
    | zero => rfl
    | succ n => simpa [modifyNth] using ih n

theorem findFirstNotStarted_eq_none_iff (ts : List Task) :
    findFirstNotStarted ts = none ↔ ∀ t ∈ ts, t.status ≠ TaskStatus.NotStarted := by
  induction ts with
  | nil => simp [findFirstNotStarted]
  | cons t ts ih =>
    by_cases h : t.status = TaskStatus.NotStarted
    · simp [findFirstNotStarted, h]
    · simp [findFirstNotStarted, h, ih]

theorem findFirstNotStarted_eq_some (ts : List Task) (k : Nat) (t : Task)
    (hget : ts.get? k = some t) (ht : t.status = TaskStatus.NotStarted)
    (hb : ∀ j u, j < k → ts.get? j = some u → u.status ≠ TaskStatus.NotStarted) :
    findFirstNotStarted ts = some k := by
  induction ts generalizing k with
  | nil => simp at hget
  | cons a ts ih =>
    cases k with
    | zero =>
      simp only [List.get?_cons_zero, Option.some.injEq] at hget
      subst hget
      simp [findFirstNotStarted, ht]
    | succ k =>
      have ha : a.status ≠ TaskStatus.NotStarted := hb 0 a (Nat.succ_pos k) rfl
      have hrec := ih k hget (fun j u hj hg => hb (j + 1) u (by omega) (by simpa using hg))
      simp [findFirstNotStarted, ha, hrec]

theorem finalScan_eq_failure_iff (ts : List Task) :
    finalScan ts = RowStatus.RowFailure ↔ firstOffending ts = some TaskStatus.Failure := by
  induction ts with
  | nil => simp [finalScan, firstOffending]
  | cons t ts ih =>
    by_cases hf : t.status = TaskStatus.Failure
    · simp [finalScan, firstOffending, hf]
    · by_cases hw : t.status = TaskStatus.Warning
      · simp [finalScan, firstOffending, hf, hw]
      · simp [finalScan, firstOffending, hf, hw, ih]

theorem finalScan_eq_warning_iff (ts : List Task) :
    finalScan ts = RowStatus.RowWarning ↔ firstOffending ts = some TaskStatus.Warning := by
  induction ts with
  | nil => simp [finalScan, firstOffending]
  | cons t ts ih =>
    by_cases hf : t.status = TaskStatus.Failure
    · simp [finalScan, firstOffending, hf]
    · by_cases hw : t.status = TaskStatus.Warning
      · simp [finalScan, firstOffending, hf, hw]
      · simp [finalScan, firstOffending, hf, hw, ih]

theorem finalScan_eq_success_iff (ts : List Task) :
    finalScan ts = RowStatus.RowSuccess ↔ firstOffending ts = none := by
  induction ts with
  | nil => simp [finalScan, firstOffending]
  | cons t ts ih =>
    by_cases hf : t.status = TaskStatus.Failure
    · simp [finalScan, firstOffending, hf]
    · by_cases hw : t.status = TaskStatus.Warning
      · simp [finalScan, firstOffending, hf, hw]
      · simp [finalScan, firstOffending, hf, hw, ih]

theorem finalScan_ne_started (ts : List Task) : finalScan ts ≠ RowStatus.RowStarted := by
  induction ts with
  | nil => simp [finalScan]
  | cons t ts ih =>
    by_cases hf : t.status = TaskStatus.Failure
    · simp [finalScan, hf]
    · by_cases hw : t.status = TaskStatus.Warning
      · simp [finalScan, hf, hw]
      · simpa [finalScan, hf, hw] using ih

theorem advanceFailure_cons_mem {a : Task} {name : String} (ts : List Task)
    (ha : a.status = TaskStatus.NotStarted) (hm : name ∈ a.shouldRunAnywayFor) :
    advanceFailure name (a :: ts) =
      ({ a with status := TaskStatus.InProgress } :: (advanceFailure a.name ts).1,
        some ((advanceFailure a.name ts).2.elim 0 (· + 1))) := by
  simp [advanceFailure, ha, hm]

theorem advanceFailure_cons_notMem {a : Task} {name : String} (ts : List Task)
    (ha : a.status = TaskStatus.NotStarted) (hm : name ∉ a.shouldRunAnywayFor) :
    advanceFailure name (a :: ts) =
      ({ a with status := TaskStatus.Skip } :: (advanceFailure name ts).1,
        (advanceFailure name ts).2.map (· + 1)) := by
  simp [advanceFailure, ha, hm]

theorem advanceFailure_cons_ne {a : Task} {name : String} (ts : List Task)
    (ha : a.status ≠ TaskStatus.NotStarted) :
    advanceFailure name (a :: ts) =
      (a :: (advanceFailure name ts).1, (advanceFailure name ts).2.map (· + 1)) := by
  simp [advanceFailure, ha]

theorem advanceFailure_length (name : String) (ts : List Task) :
    (advanceFailure name ts).1.length = ts.length := by
  induction ts generalizing name with
  | nil => rfl
  | cons t ts ih =>
    by_cases h : t.status = TaskStatus.NotStarted
    · by_cases hm : name ∈ t.shouldRunAnywayFor
      · simp [advanceFailure, h, hm, ih]
      · simp [advanceFailure, h, hm, ih]
    · simp [advanceFailure, h, ih]

theorem advanceFailure_get?_of_ne (name : String) (ts : List Task) (k : Nat) (t : Task)
    (hget : ts.get? k = some t) (h : t.status ≠ TaskStatus.NotStarted) :
    (advanceFailure name ts).1.get? k = some t := by
  induction ts generalizing name k with
  | nil => simp at hget
  | cons a ts ih =>
    cases k with
    | zero =>
      simp only [List.get?_cons_zero, Option.some.injEq] at hget
      subst hget
      simp [advanceFailure, h]
    | succ k =>
      simp only [List.get?_cons_succ] at hget
      by_cases ha : a.status = TaskStatus.NotStarted
      · by_cases hm : name ∈ a.shouldRunAnywayFor
        · simpa [advanceFailure, ha, hm] using ih a.name k hget
        · simpa [advanceFailure, ha, hm] using ih name k hget
      · simpa [advanceFailure, ha] using ih name k hget

theorem advanceFailure_get?_of_notStarted (name : String) (ts : List Task) (k : Nat) (t : Task)
    (hget : ts.get? k = some t) (h : t.status = TaskStatus.NotStarted) :
    (advanceFailure name ts).1.get? k = some { t with status := TaskStatus.InProgress } ∨
      (advanceFailure name ts).1.get? k = some { t with status := TaskStatus.Skip } := by
  induction ts generalizing name k with
  | nil => simp at hget
  | cons a ts ih =>
    cases k with
    | zero =>
      simp only [List.get?_cons_zero, Option.some.injEq] at hget
      subst hget
      by_cases hm : name ∈ a.shouldRunAnywayFor
      · exact Or.inl (by rw [advanceFailure_cons_mem ts h hm]; rfl)
      · exact Or.inr (by rw [advanceFailure_cons_notMem ts h hm]; rfl)
    | succ k =>
      simp only [List.get?_cons_succ] at hget
      by_cases ha : a.status = TaskStatus.NotStarted
      · by_cases hm : name ∈ a.shouldRunAnywayFor
        · simpa [advanceFailure, ha, hm] using ih a.name k hget
        · simpa [advanceFailure, ha, hm] using ih name k hget
      · simpa [advanceFailure, ha] using ih name k hget

theorem advanceFailure_no_notStarted (name : String) (ts : List Task) :
    ∀ t ∈ (advanceFailure name ts).1, t.status ≠ TaskStatus.NotStarted := by
  induction ts generalizing name with
  | nil => simp [advanceFailure]
  | cons a ts ih =>
    intro t ht
    by_cases ha : a.status = TaskStatus.NotStarted
    · by_cases hm : name ∈ a.shouldRunAnywayFor
      · rw [advanceFailure_cons_mem ts ha hm] at ht
        rcases List.mem_cons.mp ht with rfl | ht
        · simp
        · exact ih a.name t ht
      · rw [advanceFailure_cons_notMem ts ha hm] at ht
        rcases List.mem_cons.mp ht with rfl | ht
        · simp
        · exact ih name t ht
    · rw [advanceFailure_cons_ne ts ha] at ht
      rcases List.mem_cons.mp ht with rfl | ht
      · exact ha
      · exact ih name t ht

theorem advanceFailure_first_notStarted (name : String) (ts : List Task) (k : Nat) (t : Task)
    (hget : ts.get? k = some t) (ht : t.status = TaskStatus.NotStarted)
    (hb : ∀ j u, j < k → ts.get? j = some u → u.status ≠ TaskStatus.NotStarted) :
    (name ∈ t.shouldRunAnywayFor →
      (advanceFailure name ts).1.get? k = some { t with status := TaskStatus.InProgress } ∧
        (advanceFailure name ts).2 ≠ none) ∧
    (name ∉ t.shouldRunAnywayFor →
      (advanceFailure name ts).1.get? k = some { t with status := TaskStatus.Skip }) := by
  induction ts generalizing name k with
  | nil => simp at hget
  | cons a ts ih =>
    cases k with
    | zero =>
      simp only [List.get?_cons_zero, Option.some.injEq] at hget
      subst hget
      constructor
      · intro hm
        simp [advanceFailure, ht, hm]
      · intro hm
        simp [advanceFailure, ht, hm]
    | succ k =>
      simp only [List.get?_cons_succ] at hget
      have ha : a.status ≠ TaskStatus.NotStarted := hb 0 a (Nat.succ_pos k) rfl
      have hrec := ih name k hget (fun j u hj hg => hb (j + 1) u (by omega) (by simpa using hg))
      constructor
      · intro hm
        refine ⟨?_, ?_⟩
        · simpa [advanceFailure, ha] using (hrec.1 hm).1
        · have h2 := (hrec.1 hm).2
          simp only [advanceFailure]
          rw [if_neg ha]
          simpa using h2
      · intro hm
        simpa [advanceFailure, ha] using hrec.2 hm

theorem advanceFailure_lastStarted (name : String) (ts : List Task) (off : Nat)
    (h : (advanceFailure name ts).2 = some off) :
    ∃ t, ts.get? off = some t ∧ t.status = TaskStatus.NotStarted ∧
      (advanceFailure name ts).1.get? off = some { t with status := TaskStatus.InProgress } := by
  induction ts generalizing name off with
  | nil => simp [advanceFailure] at h
  | cons a ts ih =>
    by_cases ha : a.status = TaskStatus.NotStarted
    · by_cases hm : name ∈ a.shouldRunAnywayFor
      · rw [advanceFailure_cons_mem ts ha hm] at h ⊢
        rcases hrec : (advanceFailure a.name ts).2 with _ | j
        · rw [hrec] at h
          simp only [Option.elim, Option.some.injEq] at h
          subst h
          exact ⟨a, rfl, ha, rfl⟩
        · rw [hrec] at h
          simp only [Option.elim, Option.some.injEq] at h
          subst h
          obtain ⟨t, h1, h2, h3⟩ := ih a.name j hrec
          exact ⟨t, by simpa using h1, h2, by simpa using h3⟩
      · rw [advanceFailure_cons_notMem ts ha hm] at h ⊢
        rcases hrec : (advanceFailure name ts).2 with _ | j
        · rw [hrec] at h; simp at h
        · rw [hrec] at h
          simp only [Option.map_some', Option.some.injEq] at h
          subst h
          obtain ⟨t, h1, h2, h3⟩ := ih name j hrec
          exact ⟨t, by simpa using h1, h2, by simpa using h3⟩
    · rw [advanceFailure_cons_ne ts ha] at h ⊢
      rcases hrec : (advanceFailure name ts).2 with _ | j
      · rw [hrec] at h; simp at h
      · rw [hrec] at h
        simp only [Option.map_some', Option.some.injEq] at h
        subst h
        obtain ⟨t, h1, h2, h3⟩ := ih name j hrec
        exact ⟨t, by simpa using h1, h2, by simpa using h3⟩

theorem setDefaultDisplayTask_tasks (r : Row) (i : Nat) (msg : TaskResultMsg) :
    (r.setDefaultDisplayTask i msg).tasks = r.tasks := by
  unfold Row.setDefaultDisplayTask
  split_ifs <;> rfl

theorem setDefaultDisplayTask_status (r : Row) (i : Nat) (msg : TaskResultMsg) :
    (r.setDefaultDisplayTask i msg).status = r.status := by
  unfold Row.setDefaultDisplayTask
  split_ifs <;> rfl

theorem setDefaultDisplayTask_active (r : Row) (i : Nat) (msg : TaskResultMsg) :
    (r.setDefaultDisplayTask i msg).activeTaskIndex = r.activeTaskIndex := by
  unfold Row.setDefaultDisplayTask
  split_ifs <;> rfl

theorem applyResult_status (r : Row) (msg : TaskResultMsg) :
    (r.applyResult msg).status = r.status := by
  simp only [Row.applyResult]
  split_ifs <;> simp [setDefaultDisplayTask_status]

theorem applyResult_active (r : Row) (msg : TaskResultMsg) :
    (r.applyResult msg).activeTaskIndex = r.activeTaskIndex := by
  simp only [Row.applyResult]
  split_ifs <;> simp [setDefaultDisplayTask_active]

theorem applyResult_length (r : Row) (msg : TaskResultMsg) :
    (r.applyResult msg).tasks.length = r.tasks.length := by
  simp only [Row.applyResult]
  split_ifs <;> simp [setDefaultDisplayTask_tasks, modifyNth_length]

theorem applyResult_drop_succ (r : Row) (msg : TaskResultMsg) :
    (r.applyResult msg).tasks.drop (r.activeTaskIndex + 1) = r.tasks.drop (r.activeTaskIndex + 1) := by
  simp only [Row.applyResult]
  split_ifs <;> simp [setDefaultDisplayTask_tasks, modifyNth_drop_succ]

theorem applyResult_name_get? (r : Row) (msg : TaskResultMsg) (k : Nat) :
    ((r.applyResult msg).tasks.get? k).map Task.name = (r.tasks.get? k).map Task.name := by
  have hstep : ∀ (f : Task → Task), (∀ t, (f t).name = t.name) → ∀ (ts : List Task),
      ((modifyNth f r.activeTaskIndex ts).get? k).map Task.name = (ts.get? k).map Task.name := by
    intro f hf ts
    by_cases hk : k = r.activeTaskIndex
    · subst hk
      rw [get?_modifyNth_self]
      cases h : ts.get? r.activeTaskIndex with
      | none => rfl
      | some t => simp [hf]
    · rw [get?_modifyNth_ne _ _ hk]
  have hOut := hstep (fun t => { t with hasOutput := true, viewportInputData := msg.output })
    (fun t => rfl)
  have hCus := hstep (fun t => { t with customSuccessStatus := msg.customSuccessStatus })
    (fun t => rfl)
  have hSta := hstep (fun t => { t with status := msg.status }) (fun t => rfl)
  simp only [Row.applyResult]
  split_ifs with hO hS
  · rw [setDefaultDisplayTask_tasks]
    show ((modifyNth _ r.activeTaskIndex (modifyNth _ r.activeTaskIndex
      (modifyNth _ r.activeTaskIndex r.tasks))).get? k).map Task.name = _
    rw [hOut, hCus, hSta]
  · rw [setDefaultDisplayTask_tasks]
    show ((modifyNth _ r.activeTaskIndex (modifyNth _ r.activeTaskIndex r.tasks)).get? k).map
      Task.name = _
    rw [hOut, hSta]
  · show ((modifyNth _ r.activeTaskIndex (modifyNth _ r.activeTaskIndex r.tasks)).get? k).map
      Task.name = _
    rw [hCus, hSta]
  · show ((modifyNth _ r.activeTaskIndex r.tasks).get? k).map Task.name = _
    rw [hSta]

theorem applyResult_activeName (r : Row) (msg : TaskResultMsg) :
    (r.applyResult msg).activeName = r.activeName := by
  unfold Row.activeName
  rw [applyResult_active]
  have h := applyResult_name_get? r msg r.activeTaskIndex
  rw [List.getD_eq_getElem?_getD, List.getD_eq_getElem?_getD, ← List.get?_eq_getElem?,
    ← List.get?_eq_getElem?]
  rcases hg : r.tasks.get? r.activeTaskIndex with _ | t
  · rw [hg] at h
    rcases hg' : (r.applyResult msg).tasks.get? r.activeTaskIndex with _ | t'
    · rfl
    · rw [hg'] at h
      simp at h
  · rw [hg] at h
    rcases hg' : (r.applyResult msg).tasks.get? r.activeTaskIndex with _ | t'
    · rw [hg'] at h
      simp at h
    · rw [hg'] at h
      simp only [Option.map_some', Option.some.injEq] at h
      simpa using h

theorem update_eq_of_valid (r : Row) (msg : TaskResultMsg)
    (hr : r.status = RowStatus.RowStarted)
    (h1 : msg.status ≠ TaskStatus.InProgress) (h2 : msg.status ≠ TaskStatus.NotStarted) :
    r.update msg =
      (match ((r.applyResult msg).scanSuffix msg).2 with
       | some off =>
         (r.status, (r.applyResult msg).status,
           { r.applyResult msg with
             tasks := (r.applyResult msg).tasks.take ((r.applyResult msg).activeTaskIndex + 1) ++
               ((r.applyResult msg).scanSuffix msg).1
             activeTaskIndex := (r.applyResult msg).activeTaskIndex + 1 + off })
       | none =>
         (r.status,
           finalScan ((r.applyResult msg).tasks.take ((r.applyResult msg).activeTaskIndex + 1) ++
             ((r.applyResult msg).scanSuffix msg).1),
           { r.applyResult msg with
             tasks := (r.applyResult msg).tasks.take ((r.applyResult msg).activeTaskIndex + 1) ++
               ((r.applyResult msg).scanSuffix msg).1
             status := finalScan ((r.applyResult msg).tasks.take ((r.applyResult msg).activeTaskIndex + 1) ++
               ((r.applyResult msg).scanSuffix msg).1) })) := by
  unfold Row.update
  rw [if_neg (by simp [hr]), if_neg (by rintro (h | h) <;> [exact h1 h; exact h2 h])]

theorem update_rowNotDone (r : Row) (msg : TaskResultMsg)
    (hr : r.status = RowStatus.RowStarted)
    (h1 : msg.status ≠ TaskStatus.InProgress) (h2 : msg.status ≠ TaskStatus.NotStarted)
    (off : Nat) (hs : ((r.applyResult msg).scanSuffix msg).2 = some off) :
    r.update msg =
      (r.status, (r.applyResult msg).status,
        { r.applyResult msg with
          tasks := (r.applyResult msg).tasks.take ((r.applyResult msg).activeTaskIndex + 1) ++
            ((r.applyResult msg).scanSuffix msg).1
          activeTaskIndex := (r.applyResult msg).activeTaskIndex + 1 + off }) := by
  rw [update_eq_of_valid r msg hr h1 h2, hs]

theorem update_done (r : Row) (msg : TaskResultMsg)
    (hr : r.status = RowStatus.RowStarted)
    (h1 : msg.status ≠ TaskStatus.InProgress) (h2 : msg.status ≠ TaskStatus.NotStarted)
    (hs : ((r.applyResult msg).scanSuffix msg).2 = none) :
    r.update msg =
      (r.status,
        finalScan ((r.applyResult msg).tasks.take ((r.applyResult msg).activeTaskIndex + 1) ++
          ((r.applyResult msg).scanSuffix msg).1),
        { r.applyResult msg with
          tasks := (r.applyResult msg).tasks.take ((r.applyResult msg).activeTaskIndex + 1) ++
            ((r.applyResult msg).scanSuffix msg).1
          status := finalScan ((r.applyResult msg).tasks.take ((r.applyResult msg).activeTaskIndex + 1) ++
            ((r.applyResult msg).scanSuffix msg).1) }) := by
  rw [update_eq_of_valid r msg hr h1 h2, hs]

theorem setCount_self (c : RowStatus → Option Int) (s : RowStatus) (v : Int) :
    setCount c s v s = some v := by
  simp [setCount]

theorem setCount_other (c : RowStatus → Option Int) (s : RowStatus) (v : Int) (u : RowStatus)
    (h : u ≠ s) : setCount c s v u = c u := by
  simp [setCount, h]

theorem eraseCount_self (c : RowStatus → Option Int) (s : RowStatus) :
    eraseCount c s s = none := by
  simp [eraseCount]

theorem eraseCount_other (c : RowStatus → Option Int) (s : RowStatus) (u : RowStatus)
    (h : u ≠ s) : eraseCount c s u = c u := by
  simp [eraseCount, h]

theorem updateStatusCounts_at_add (c : RowStatus → Option Int) (add remove : RowStatus)
    (hadd : add.toGoInt ≠ 0) (hne : add ≠ remove) :
    updateStatusCounts c add remove add = some ((c add).getD 0 + 1) := by
  simp only [updateStatusCounts, if_pos hadd]
  by_cases hr : remove.toGoInt ≠ 0
  · rw [if_pos hr]
    rcases h : setCount c add ((c add).getD 0 + 1) remove with _ | v
    · exact setCount_self c add _
    · dsimp only
      by_cases hv : v - 1 > 0
      · rw [if_pos hv, setCount_other _ _ _ _ hne]
        exact setCount_self c add _
      · rw [if_neg hv, eraseCount_other _ _ _ hne]
        exact setCount_self c add _
  · rw [if_neg hr]
    exact setCount_self c add _

theorem updateStatusCounts_at_remove_some (c : RowStatus → Option Int) (add remove : RowStatus)
    (hrem : remove.toGoInt ≠ 0) (hne : remove ≠ add) (v : Int) (h : c remove = some v) :
    updateStatusCounts c add remove remove = if v - 1 > 0 then some (v - 1) else none := by
  simp only [updateStatusCounts]
  have hc1 : (if add.toGoInt ≠ 0 then setCount c add ((c add).getD 0 + 1) else c) remove
      = some v := by
    by_cases ha : add.toGoInt ≠ 0
    · rw [if_pos ha, setCount_other _ _ _ _ hne]
      exact h
    · rw [if_neg ha]
      exact h
  rw [if_pos hrem, hc1]
  dsimp only
  by_cases hv : v - 1 > 0
  · rw [if_pos hv, if_pos hv]
    exact setCount_self _ _ _
  · rw [if_neg hv, if_neg hv]
    exact eraseCount_self _ _

theorem updateStatusCounts_at_remove_none (c : RowStatus → Option Int) (add remove : RowStatus)
    (hne : remove ≠ add) (h : c remove = none) :
    updateStatusCounts c add remove remove = none := by
  simp only [updateStatusCounts]
  have hc1 : (if add.toGoInt ≠ 0 then setCount c add ((c add).getD 0 + 1) else c) remove
      = none := by
    by_cases ha : add.toGoInt ≠ 0
    · rw [if_pos ha, setCount_other _ _ _ _ hne]
      exact h
    · rw [if_neg ha]
      exact h
  by_cases hr : remove.toGoInt ≠ 0
  · rw [if_pos hr, hc1]
    exact hc1
  · rw [if_neg hr]
    exact hc1

theorem updateStatusCounts_at_other (c : RowStatus → Option Int) (add remove u : RowStatus)
    (h1 : u ≠ add) (h2 : u ≠ remove) :
    updateStatusCounts c add remove u = c u := by
  simp only [updateStatusCounts]
  have hc1 : (if add.toGoInt ≠ 0 then setCount c add ((c add).getD 0 + 1) else c) u = c u := by
    by_cases ha : add.toGoInt ≠ 0
    · rw [if_pos ha, setCount_other _ _ _ _ h1]
    · rw [if_neg ha]
  by_cases hr : remove.toGoInt ≠ 0
  · rw [if_pos hr]
    rcases h : (if add.toGoInt ≠ 0 then setCount c add ((c add).getD 0 + 1) else c) remove
      with _ | v
    · exact hc1
    · dsimp only
      by_cases hv : v - 1 > 0
      · rw [if_pos hv, setCount_other _ _ _ _ h2]
        exact hc1
      · rw [if_neg hv, eraseCount_other _ _ _ h2]
        exact hc1
  · rw [if_neg hr]
    exact hc1

theorem iterateStartedToFailure_spec (n : Nat) (c : RowStatus → Option Int) (s f : Int)
    (hs : c RowStatus.RowStarted = some s) (hf : c RowStatus.RowFailure = some f)
    (hs0 : 0 < s) (hn : (n : Int) ≤ s) :
    iterateStartedToFailure n c RowStatus.RowFailure = some (f + n) ∧
    iterateStartedToFailure n c RowStatus.RowStarted =
      (if (n : Int) < s then some (s - n) else none) ∧
    ∀ u, u ≠ RowStatus.RowFailure → u ≠ RowStatus.RowStarted →
      iterateStartedToFailure n c u = c u := by
  induction n with
  | zero =>
    refine ⟨by simpa using hf, ?_, fun u _ _ => rfl⟩
    rw [if_pos (by exact_mod_cast hs0)]
    simpa using hs
  | succ n ih =>
    have hn' : (n : Int) ≤ s := by
      push_cast at hn
      omega
    have hns : (n : Int) < s := by
      push_cast at hn
      omega
    obtain ⟨ihf, ihs, iho⟩ := ih hn'
    rw [if_pos hns] at ihs
    have step : iterateStartedToFailure (n + 1) c =
        updateStatusCounts (iterateStartedToFailure n c) RowStatus.RowFailure
          RowStatus.RowStarted := rfl
    refine ⟨?_, ?_, ?_⟩
    · rw [step, updateStatusCounts_at_add _ _ _ (by decide) (by decide), ihf]
      simp only [Option.getD_some]
      congr 1
      push_cast
      ring
    · rw [step, updateStatusCounts_at_remove_some _ _ _ (by decide) (by decide) _ ihs]
      by_cases hlt : ((n : Int) + 1) < s
      · rw [if_pos (by omega), if_pos (by push_cast; omega)]
        congr 1
        push_cast
        ring
      · rw [if_neg (by omega), if_neg (by push_cast; omega)]
    · intro u hu1 hu2
      rw [step, updateStatusCounts_at_other _ _ _ _ hu1 hu2]
      exact iho u hu1 hu2

theorem pageSize_foldl_of_not_mem (opts : List ModelOption) (m : Model)
    (h : ∀ q, ModelOption.withPageSize q ∉ opts) :
    (opts.foldl applyOption m).pageSize = m.pageSize := by
  induction opts generalizing m with
  | nil => rfl
  | cons o opts ih =>
    have ho : (applyOption m o).pageSize = m.pageSize := by
      cases o with
      | withPageSize q => exact absurd (List.mem_cons_self _ _) (h q)
      | _ => rfl
    rw [List.foldl_cons, ih _ (fun q hq => h q (List.mem_cons_of_mem _ hq)), ho]

theorem pageSize_foldl_ge_one (opts : List ModelOption) (m : Model)
    (h : 1 ≤ m.pageSize) : 1 ≤ (opts.foldl applyOption m).pageSize := by
  induction opts generalizing m with
  | nil => exact h
  | cons o opts ih =>
    rw [List.foldl_cons]
    refine ih _ ?_
    cases o with
    | withPageSize q => exact le_max_right q 1
    | _ => exact h

theorem newModel_pageSize (opts : List ModelOption) :
    (NewModel opts).pageSize =
      (opts.foldl applyOption
        { rows := [], selectedRow := 0, taskColumns := [], prefixColumns := [],
          pageSize := 6, pageCurrentStart := 0, pageCurrentEnd := 0,
          statusCounts := fun _ => none }).pageSize := rfl

/-! ### Claim theorems -/

/-- C5: for every row and event, `update` is a no-op — the row (status,
`activeTaskIndex`, every task field) is returned unchanged and the returned
current status equals the previous status — whenever the row's status is
not `RowStarted`, or the event's status is `InProgress` or `NotStarted`. -/
theorem update_noop_of_invalid (r : Row) (msg : TaskResultMsg)
    (h : r.status ≠ RowStatus.RowStarted ∨ msg.status = TaskStatus.InProgress ∨
      msg.status = TaskStatus.NotStarted) :
    r.update msg = (r.status, r.status, r) := by
  unfold Row.update
  by_cases hs : r.status = RowStatus.RowStarted
  · rcases h with h | h | h
    · exact absurd hs h
    · rw [if_neg (not_not_intro hs), if_pos (Or.inl h)]
    · rw [if_neg (not_not_intro hs), if_pos (Or.inr h)]
  · rw [if_pos hs]

/-- Witness for C5 at a concrete not-yet-started row. -/
theorem update_noop_of_invalid_witness :
    (mkRow [mkTask "t1" []]).update (mkMsg TaskStatus.Success 0) =
      (RowStatus.RowNotStarted, RowStatus.RowNotStarted, mkRow [mkTask "t1" []]) :=
  update_noop_of_invalid (mkRow [mkTask "t1" []]) (mkMsg TaskStatus.Success 0)
    (Or.inl (by decide))

/-- C6: `start()` on a `RowNotStarted` row sets the first `NotStarted` task
(in column order) to `InProgress`, records its index as `activeTaskIndex`,
and sets the row status to `RowStarted`; if no task is `NotStarted` the row
immediately becomes `RowSuccess` with tasks untouched (so, when no task was
`InProgress` before — true of every freshly constructed row — none is
after).  `start()` on a row not in `RowNotStarted` changes nothing. -/
theorem start_spec (r : Row) :
    (r.status ≠ RowStatus.RowNotStarted → r.start = r) ∧
    (r.status = RowStatus.RowNotStarted →
      (∀ k t, r.tasks.get? k = some t → t.status = TaskStatus.NotStarted →
        (∀ j u, j < k → r.tasks.get? j = some u → u.status ≠ TaskStatus.NotStarted) →
        (r.start.status = RowStatus.RowStarted ∧
          r.start.activeTaskIndex = k ∧
          r.start.tasks.get? k = some { t with status := TaskStatus.InProgress } ∧
          ∀ j, j ≠ k → r.start.tasks.get? j = r.tasks.get? j)) ∧
      ((∀ t ∈ r.tasks, t.status ≠ TaskStatus.NotStarted) →
        r.start.status = RowStatus.RowSuccess ∧ r.start.tasks = r.tasks ∧
        ((∀ t ∈ r.tasks, t.status ≠ TaskStatus.InProgress) →
          ∀ t ∈ r.start.tasks, t.status ≠ TaskStatus.InProgress))) := by
  constructor
  · intro h
    unfold Row.start
    rw [if_pos h]
  · intro hns
    constructor
    · intro k t hget ht hb
      have hf := findFirstNotStarted_eq_some r.tasks k t hget ht hb
      unfold Row.start
      rw [if_neg (not_not_intro hns), hf]
      refine ⟨rfl, rfl, ?_, ?_⟩
      · show (modifyNth _ k r.tasks).get? k = _
        rw [get?_modifyNth_self, hget]
        rfl
      · intro j hj
        show (modifyNth _ k r.tasks).get? j = _
        exact get?_modifyNth_ne _ _ hj
    · intro hall
      have hf := (findFirstNotStarted_eq_none_iff r.tasks).mpr hall
      unfold Row.start
      rw [if_neg (not_not_intro hns), hf]
      exact ⟨rfl, rfl, fun hnp t ht => hnp t ht⟩

/-- Witness for C6: a fresh one-task row starts into `RowStarted`, and a row
whose only task is pre-declared Skip is immediately `RowSuccess`. -/
theorem start_spec_witness :
    (mkRow [mkTask "t1" []]).start.status = RowStatus.RowStarted ∧
    (mkRow [{ mkTask "t1" [] with status := TaskStatus.Skip }]).start.status =
      RowStatus.RowSuccess := by
  constructor
  · exact (((start_spec (mkRow [mkTask "t1" []])).2 (by decide)).1 0 (mkTask "t1" [])
      (by decide) (by decide) (fun j u hj _ => absurd hj (by omega))).1
  · exact (((start_spec (mkRow [{ mkTask "t1" [] with status := TaskStatus.Skip }])).2
      (by decide)).2 (by decide)).1

/-- C7: for `totalRows ≥ 1`, `pageSize ≥ 1` and `0 ≤ currentIndex <
totalRows`, `GetPaginationDetails` returns `numPages = ceil(total/pageSize)`
(characterised by `t ≤ p·numPages < t + p`), `pageStart =
floor(currentIndex/pageSize)·pageSize`, `pageEnd = min(pageStart+pageSize-1,
totalRows-1)` and `currentPage = pageStart/pageSize` (the source computes
`ceil(pageStart/pageSize)`, which coincides because `pageStart` is a
multiple of `pageSize`); in particular `(13, 6, 7) ↦ (3, 1, 6, 11)`. -/
theorem getPaginationDetails_spec (t p c : Nat) (ht : 1 ≤ t) (hp : 1 ≤ p) (hc : c < t) :
    (t ≤ p * (GetPaginationDetails t p c).1 ∧ p * (GetPaginationDetails t p c).1 < t + p) ∧
    (GetPaginationDetails t p c).2.2.1 = c / p * p ∧
    (GetPaginationDetails t p c).2.2.2 =
      min ((GetPaginationDetails t p c).2.2.1 + p - 1) (t - 1) ∧
    (GetPaginationDetails t p c).2.1 = (GetPaginationDetails t p c).2.2.1 / p ∧
    GetPaginationDetails 13 6 7 = (3, 1, 6, 11) := by
  refine ⟨?_, rfl, rfl, ?_, by decide⟩
  · show t ≤ p * ((t + p - 1) / p) ∧ p * ((t + p - 1) / p) < t + p
    have h0 := Nat.div_add_mod (t + p - 1) p
    have h1 : (t + p - 1) % p < p := Nat.mod_lt _ (by omega)
    generalize hq : (t + p - 1) / p = q at *
    generalize hx : p * q = x at *
    omega
  · show ((c / p * p + p - 1) / p : Nat) = c / p * p / p
    rw [Nat.mul_comm (c / p) p, Nat.add_sub_assoc hp, Nat.mul_add_div (by omega),
      Nat.div_eq_of_lt (show p - 1 < p by omega), Nat.add_zero,
      Nat.mul_div_cancel_left _ (by omega : 0 < p)]

/-- Witness for C7: the spec's concrete pagination example. -/
theorem getPaginationDetails_spec_witness : GetPaginationDetails 13 6 7 = (3, 1, 6, 11) :=
  (getPaginationDetails_spec 13 6 7 (by decide) (by decide) (by decide)).2.2.2.2

/-- C9: the default-display-task policy, in priority order: (1) an event
that forces default wins; (2) otherwise, if no default is set yet
(`defaultTaskIndex < 0`, initialised to `-1`) or the current default task's
status is `Success`, the completing task becomes the default; (3) otherwise
the completing task becomes the default exactly when the event status is
`Failure` or `Warning` and the current default task's status is neither;
(4) otherwise the row is unchanged. -/
theorem setDefaultDisplayTask_policy (r : Row) (i : Nat) (msg : TaskResultMsg) :
    (msg.forceDefault = true →
      (r.setDefaultDisplayTask i msg).defaultTaskIndex = (i : Int)) ∧
    (msg.forceDefault = false →
      (r.defaultTaskIndex < 0 ∨ r.defaultTaskStatus = TaskStatus.Success) →
      (r.setDefaultDisplayTask i msg).defaultTaskIndex = (i : Int)) ∧
    (msg.forceDefault = false →
      ¬(r.defaultTaskIndex < 0 ∨ r.defaultTaskStatus = TaskStatus.Success) →
      (msg.status = TaskStatus.Failure ∨ msg.status = TaskStatus.Warning) →
      r.defaultTaskStatus ≠ TaskStatus.Failure → r.defaultTaskStatus ≠ TaskStatus.Warning →
      (r.setDefaultDisplayTask i msg).defaultTaskIndex = (i : Int)) ∧
    (msg.forceDefault = false →
      ¬(r.defaultTaskIndex < 0 ∨ r.defaultTaskStatus = TaskStatus.Success) →
      ¬((msg.status = TaskStatus.Failure ∨ msg.status = TaskStatus.Warning) ∧
        r.defaultTaskStatus ≠ TaskStatus.Failure ∧ r.defaultTaskStatus ≠ TaskStatus.Warning) →
      r.setDefaultDisplayTask i msg = r) := by
  refine ⟨?_, ?_, ?_, ?_⟩
  · intro hf
    unfold Row.setDefaultDisplayTask
    rw [if_pos hf]
  · intro hf h2
    unfold Row.setDefaultDisplayTask
    rw [if_neg (by simp [hf]), if_pos h2]
  · intro hf h2 h3 h4 h5
    unfold Row.setDefaultDisplayTask
    rw [if_neg (by simp [hf]), if_neg h2, if_pos ⟨h3, h4, h5⟩]
  · intro hf h2 h3
    unfold Row.setDefaultDisplayTask
    rw [if_neg (by simp [hf]), if_neg h2, if_neg (by tauto)]

/-- Witness for C9: a forcing event sets the default to the completing
task, on a concrete row with no prior default. -/
theorem setDefaultDisplayTask_policy_witness :
    ((mkRow [mkTask "t1" []]).setDefaultDisplayTask 0
      { mkMsg TaskStatus.Success 0 with forceDefault := true }).defaultTaskIndex = (0 : Int) :=
  (setDefaultDisplayTask_policy (mkRow [mkTask "t1" []]) 0
    { mkMsg TaskStatus.Success 0 with forceDefault := true }).1 rfl

/-- C1 (amended): when `update(event)` completes a row (the advance scan
starts no new task, i.e. the resulting status is not `RowStarted`), the
final row status is decided by the FIRST task in column order whose status
is `Failure` or `Warning` — `RowFailure` iff that first offending status is
`Failure`, `RowWarning` iff it is `Warning`, `RowSuccess` iff no task
offends — and the returned current status equals it.  (The claim's
severity-ranked reading — a `Failure` anywhere forces `RowFailure` even
past an earlier `Warning` — is refuted by the counterexample below.) -/
theorem row_final_status (r : Row) (msg : TaskResultMsg)
    (hr : r.status = RowStatus.RowStarted)
    (h1 : msg.status ≠ TaskStatus.InProgress) (h2 : msg.status ≠ TaskStatus.NotStarted)
    (hdone : (r.update msg).2.2.status ≠ RowStatus.RowStarted) :
    ((r.update msg).2.2.status = RowStatus.RowFailure ↔
      firstOffending (r.update msg).2.2.tasks = some TaskStatus.Failure) ∧
    ((r.update msg).2.2.status = RowStatus.RowWarning ↔
      firstOffending (r.update msg).2.2.tasks = some TaskStatus.Warning) ∧
    ((r.update msg).2.2.status = RowStatus.RowSuccess ↔
      firstOffending (r.update msg).2.2.tasks = none) ∧
    (r.update msg).2.1 = (r.update msg).2.2.status := by
  rcases hscan : ((r.applyResult msg).scanSuffix msg).2 with _ | off
  · rw [update_done r msg hr h1 h2 hscan]
    exact ⟨finalScan_eq_failure_iff _, finalScan_eq_warning_iff _,
      finalScan_eq_success_iff _, rfl⟩
  · exfalso
    apply hdone
    rw [update_rowNotDone r msg hr h1 h2 off hscan]
    show (r.applyResult msg).status = RowStatus.RowStarted
    rw [applyResult_status, hr]

/-- C1 counterexample: a row whose first task reported `Warning` and whose
second reported `Failure` completes as `RowWarning` — a `Failure` among the
tasks does NOT force `RowFailure` when a `Warning` occurs earlier in task
order, contradicting the claim as stated. -/
theorem row_final_status_cex :
    c1Final.status ≠ RowStatus.RowStarted ∧
    (∃ t ∈ c1Final.tasks, t.status = TaskStatus.Failure) ∧
    c1Final.status = RowStatus.RowWarning ∧
    RowStatus.RowWarning ≠ RowStatus.RowFailure := by
  decide

/-- Witness for C1's amended theorem at the Warning-then-Failure row. -/
theorem row_final_status_witness :
    (((c1Row.start).update (mkMsg TaskStatus.Warning 0)).2.2.update
      (mkMsg TaskStatus.Failure 0)).2.2.status = RowStatus.RowWarning := by
  have h := row_final_status ((c1Row.start).update (mkMsg TaskStatus.Warning 0)).2.2
    (mkMsg TaskStatus.Failure 0) (by decide) (by decide) (by decide) (by decide)
  exact h.2.1.mpr (by decide)

/-- C2 (code bug): starting `c2Row` and failing its first task drives the
Failure advance scan through a run-anyway chain (t2 runs anyway for t1 and
is set `InProgress`; the scan then compares t3 against the NEW active task
t2 and sets it `InProgress` too), leaving TWO tasks `InProgress` in one row
— the spec's at-most-one-`InProgress` invariant is violated by the code. -/
theorem run_anyway_two_in_progress :
    countInProgress (((c2Row.start).update (mkMsg TaskStatus.Failure 0)).2.2).tasks = 2 ∧
    ((c2Row.start).update (mkMsg TaskStatus.Failure 0)).2.2.status = RowStatus.RowStarted := by
  decide

/-- C3 counterexample: with tasks `[t1, t2(runFor t1), t3]`, failing t1 sets
t2 `InProgress` and then KEEPS scanning, setting t3 to `Skip`; under the
claim's semantics (`specFailureScan`: stop at the first run-anyway match)
t3 would remain `NotStarted`. -/
theorem failure_scan_cex :
    ((c3Row.start).update (mkMsg TaskStatus.Failure 0)).2.2.tasks.map Task.status =
      [TaskStatus.Failure, TaskStatus.InProgress, TaskStatus.Skip] ∧
    (specFailureScan "t1" ((c3Row.start).tasks.drop 1)).1.map Task.status =
      [TaskStatus.InProgress, TaskStatus.NotStarted] ∧
    TaskStatus.Skip ≠ TaskStatus.NotStarted := by
  decide

/-- C3 (amended): on a `Failure` event the advance scan walks ALL tasks
strictly after `activeTaskIndex` (it never stops early): tasks not in
`NotStarted` are untouched; every `NotStarted` task ends `InProgress` or
`Skip` (none remains `NotStarted`); the FIRST `NotStarted` task is matched
against the name of the task that just failed — if its `shouldRunAnywayFor`
contains that name it is set `InProgress` (and the row stays `RowStarted`),
else `Skip`; subsequent matches are against the most recently started
task's name, and when the row stays `RowStarted` the new `activeTaskIndex`
is the LAST task set `InProgress` in the scan. -/
theorem failure_scan_spec (r : Row) (msg : TaskResultMsg)
    (hr : r.status = RowStatus.RowStarted) (hmsg : msg.status = TaskStatus.Failure)
    (hlen : r.activeTaskIndex < r.tasks.length) :
    (r.update msg).2.2.tasks.length = r.tasks.length ∧
    (∀ k t, r.tasks.get? (r.activeTaskIndex + 1 + k) = some t →
      t.status ≠ TaskStatus.NotStarted →
      (r.update msg).2.2.tasks.get? (r.activeTaskIndex + 1 + k) = some t) ∧
    (∀ k t, r.tasks.get? (r.activeTaskIndex + 1 + k) = some t →
      t.status = TaskStatus.NotStarted →
      ((r.update msg).2.2.tasks.get? (r.activeTaskIndex + 1 + k) =
          some { t with status := TaskStatus.InProgress } ∨
        (r.update msg).2.2.tasks.get? (r.activeTaskIndex + 1 + k) =
          some { t with status := TaskStatus.Skip })) ∧
    (∀ k t, (r.update msg).2.2.tasks.get? (r.activeTaskIndex + 1 + k) = some t →
      t.status ≠ TaskStatus.NotStarted) ∧
    (∀ k t, r.tasks.get? (r.activeTaskIndex + 1 + k) = some t →
      t.status = TaskStatus.NotStarted →
      (∀ j u, j < k → r.tasks.get? (r.activeTaskIndex + 1 + j) = some u →
        u.status ≠ TaskStatus.NotStarted) →
      ((r.activeName ∈ t.shouldRunAnywayFor →
        (r.update msg).2.2.tasks.get? (r.activeTaskIndex + 1 + k) =
          some { t with status := TaskStatus.InProgress } ∧
        (r.update msg).2.2.status = RowStatus.RowStarted) ∧
      (r.activeName ∉ t.shouldRunAnywayFor →
        (r.update msg).2.2.tasks.get? (r.activeTaskIndex + 1 + k) =
          some { t with status := TaskStatus.Skip }))) ∧
    ((r.update msg).2.2.status = RowStatus.RowStarted →
      r.activeTaskIndex < (r.update msg).2.2.activeTaskIndex ∧
      ∃ u, r.tasks.get? (r.update msg).2.2.activeTaskIndex = some u ∧
        u.status = TaskStatus.NotStarted ∧
        (r.update msg).2.2.tasks.get? (r.update msg).2.2.activeTaskIndex =
          some { u with status := TaskStatus.InProgress }) := by
  have h1 : msg.status ≠ TaskStatus.InProgress := by rw [hmsg]; decide
  have h2 : msg.status ≠ TaskStatus.NotStarted := by rw [hmsg]; decide
  have hA : (r.applyResult msg).activeTaskIndex = r.activeTaskIndex := applyResult_active r msg
  have hL : (r.applyResult msg).tasks.length = r.tasks.length := applyResult_length r msg
  have hD : (r.applyResult msg).tasks.drop (r.activeTaskIndex + 1) =
      r.tasks.drop (r.activeTaskIndex + 1) := applyResult_drop_succ r msg
  have hN : (r.applyResult msg).activeName = r.activeName := applyResult_activeName r msg
  have hscan : (r.applyResult msg).scanSuffix msg =
      advanceFailure r.activeName (r.tasks.drop (r.activeTaskIndex + 1)) := by
    unfold Row.scanSuffix
    rw [if_pos hmsg, hN, hA, hD]
  have htake : ((r.applyResult msg).tasks.take ((r.applyResult msg).activeTaskIndex + 1)).length
      = r.activeTaskIndex + 1 := by
    rw [hA, List.length_take, hL]
    omega
  have htasks : (r.update msg).2.2.tasks =
      (r.applyResult msg).tasks.take ((r.applyResult msg).activeTaskIndex + 1) ++
        (advanceFailure r.activeName (r.tasks.drop (r.activeTaskIndex + 1))).1 := by
    rcases hs : ((r.applyResult msg).scanSuffix msg).2 with _ | off
    · rw [update_done r msg hr h1 h2 hs]
      show (r.applyResult msg).tasks.take _ ++ ((r.applyResult msg).scanSuffix msg).1 = _
      rw [hscan]
    · rw [update_rowNotDone r msg hr h1 h2 off hs]
      show (r.applyResult msg).tasks.take _ ++ ((r.applyResult msg).scanSuffix msg).1 = _
      rw [hscan]
  have hsuffix : ∀ k, (r.update msg).2.2.tasks.get? (r.activeTaskIndex + 1 + k) =
      (advanceFailure r.activeName (r.tasks.drop (r.activeTaskIndex + 1))).1.get? k := by
    intro k
    rw [htasks, List.get?_append_right (by rw [htake]; omega), htake]
    congr 1
    omega
  have hin : ∀ k, (r.tasks.drop (r.activeTaskIndex + 1)).get? k =
      r.tasks.get? (r.activeTaskIndex + 1 + k) := fun k => List.get?_drop ..
  have hstat : ∀ off, ((r.applyResult msg).scanSuffix msg).2 = some off →
      (r.update msg).2.2.status = RowStatus.RowStarted ∧
        (r.update msg).2.2.activeTaskIndex = r.activeTaskIndex + 1 + off := by
    intro off hs
    rw [update_rowNotDone r msg hr h1 h2 off hs]
    constructor
    · show (r.applyResult msg).status = _
      rw [applyResult_status, hr]
    · show (r.applyResult msg).activeTaskIndex + 1 + off = _
      rw [hA]
  have hterm : ((r.applyResult msg).scanSuffix msg).2 = none →
      (r.update msg).2.2.status ≠ RowStatus.RowStarted := by
    intro hs
    rw [update_done r msg hr h1 h2 hs]
    exact finalScan_ne_started _
  refine ⟨?_, ?_, ?_, ?_, ?_, ?_⟩
  · rw [htasks, List.length_append, htake, advanceFailure_length, List.length_drop]
    omega
  · intro k t hget hne
    rw [hsuffix k]
    exact advanceFailure_get?_of_ne _ _ k t (by rw [hin k]; exact hget) hne
  · intro k t hget ht
    rw [hsuffix k]
    exact advanceFailure_get?_of_notStarted _ _ k t (by rw [hin k]; exact hget) ht
  · intro k t hget
    rw [hsuffix k] at hget
    exact advanceFailure_no_notStarted _ _ t (List.get?_mem hget)
  · intro k t hget ht hb
    have hfirst := advanceFailure_first_notStarted r.activeName
      (r.tasks.drop (r.activeTaskIndex + 1)) k t (by rw [hin k]; exact hget) ht
      (fun j u hj hg => hb j u hj (by rw [← hin j]; exact hg))
    constructor
    · intro hm
      obtain ⟨hip, hnn⟩ := hfirst.1 hm
      refine ⟨by rw [hsuffix k]; exact hip, ?_⟩
      have h22 : ((r.applyResult msg).scanSuffix msg).2 =
          (advanceFailure r.activeName (r.tasks.drop (r.activeTaskIndex + 1))).2 := by
        rw [hscan]
      rcases Option.ne_none_iff_exists'.mp hnn with ⟨off, hoff⟩
      exact (hstat off (by rw [h22, hoff])).1
    · intro hm
      rw [hsuffix k]
      exact hfirst.2 hm
  · intro hst
    rcases hs : ((r.applyResult msg).scanSuffix msg).2 with _ | off
    · exact absurd hst (hterm hs)
    · obtain ⟨_, hact⟩ := hstat off hs
      have hoff2 : (advanceFailure r.activeName (r.tasks.drop (r.activeTaskIndex + 1))).2 =
          some off := by
        rw [hscan] at hs
        exact hs
      obtain ⟨u, hu1, hu2, hu3⟩ := advanceFailure_lastStarted _ _ off hoff2
      rw [hin off] at hu1
      refine ⟨by rw [hact]; omega, u, ?_, hu2, ?_⟩
      · rw [hact]
        exact hu1
      · rw [hact, hsuffix off]
        exact hu3

/-- Witness for C3's amended theorem: on `c3Row`, failing t1 starts the
run-anyway task t2 and the row stays `RowStarted`. -/
theorem failure_scan_spec_witness :
    ((c3Row.start).update (mkMsg TaskStatus.Failure 0)).2.2.status = RowStatus.RowStarted := by
  have h := failure_scan_spec (c3Row.start) (mkMsg TaskStatus.Failure 0)
    (by decide) (by decide) (by decide)
  exact ((h.2.2.2.2.1 0 (mkTask "t2" ["t1"]) (by decide) (by decide)
    (fun j u hj _ => absurd hj (by omega))).1 (by decide)).2

/-- C4 (amended): `Model.Update` indexes `m.rows[msg.Index]` without any
bounds check, so an event whose row index is outside `[0, len(rows))` is a
runtime panic (modelled as `none`), not a silent no-op. -/
theorem updateTaskResult_out_of_range (m : Model) (msg : TaskResultMsg)
    (h : msg.index < 0 ∨ (m.rows.length : Int) ≤ msg.index) :
    m.updateTaskResult msg = none := by
  unfold Model.updateTaskResult
  rw [if_pos h]

/-- C4 counterexample: a one-row dashboard receiving an event for row index
1 (out of range) faults (`none`); the claim's predicted silent no-op would
be `some c4Model`. -/
theorem updateTaskResult_cex :
    ((c4Model.rows.length : Int) ≤ (mkMsg TaskStatus.Success 1).index) ∧
    c4Model.updateTaskResult (mkMsg TaskStatus.Success 1) = none ∧
    (none : Option Model) ≠ some c4Model := by
  refine ⟨by decide, rfl, by simp⟩

/-- Witness for C4's amended theorem at a negative row index. -/
theorem updateTaskResult_out_of_range_witness :
    c4Model.updateTaskResult (mkMsg TaskStatus.Success (-1)) = none :=
  updateTaskResult_out_of_range c4Model (mkMsg TaskStatus.Success (-1))
    (Or.inl (by decide))

/-- C8: `updateStatusCounts(add, remove)` (for the non-zero statuses a
processed event produces, `add ≠ remove`) increments the `add` bucket by
one (a missing bucket reads as 0), decrements the `remove` bucket by one —
deleting it when the count would reach zero — leaves a missing `remove`
bucket absent, and touches no other bucket; consequently, `n ≤ s` events
each moving a row from `RowStarted` to `RowFailure` grow the `RowFailure`
bucket by `n` and shrink a `RowStarted` bucket holding `s > 0` by `n`,
deleting it when it reaches zero. -/
theorem updateStatusCounts_spec (c : RowStatus → Option Int) (add remove : RowStatus)
    (hadd : add.toGoInt ≠ 0) (hrem : remove.toGoInt ≠ 0) (hne : add ≠ remove)
    (n : Nat) (s f : Int) (hs : c RowStatus.RowStarted = some s)
    (hf : c RowStatus.RowFailure = some f) (hs0 : 0 < s) (hn : (n : Int) ≤ s) :
    updateStatusCounts c add remove add = some ((c add).getD 0 + 1) ∧
    (∀ v, c remove = some v →
      updateStatusCounts c add remove remove = if v - 1 > 0 then some (v - 1) else none) ∧
    (c remove = none → updateStatusCounts c add remove remove = none) ∧
    (∀ u, u ≠ add → u ≠ remove → updateStatusCounts c add remove u = c u) ∧
    iterateStartedToFailure n c RowStatus.RowFailure = some (f + n) ∧
    iterateStartedToFailure n c RowStatus.RowStarted =
      (if (n : Int) < s then some (s - n) else none) ∧
    (∀ u, u ≠ RowStatus.RowFailure → u ≠ RowStatus.RowStarted →
      iterateStartedToFailure n c u = c u) := by
  obtain ⟨hitf, hits, hito⟩ := iterateStartedToFailure_spec n c s f hs hf hs0 hn
  exact ⟨updateStatusCounts_at_add c add remove hadd hne,
    fun v hv => updateStatusCounts_at_remove_some c add remove hrem (Ne.symm hne) v hv,
    fun hv => updateStatusCounts_at_remove_none c add remove (Ne.symm hne) hv,
    fun u h1 h2 => updateStatusCounts_at_other c add remove u h1 h2,
    hitf, hits, hito⟩

/-- Witness for C8: two Started→Failure transitions on a map holding two
Started rows and an explicit zero Failure bucket: Failure grows to 2 and
the Started bucket is deleted. -/
theorem updateStatusCounts_spec_witness :
    iterateStartedToFailure 2 cW RowStatus.RowFailure = some 2 ∧
    iterateStartedToFailure 2 cW RowStatus.RowStarted = none := by
  have h := updateStatusCounts_spec cW RowStatus.RowFailure RowStatus.RowStarted
    (by decide) (by decide) (by decide) 2 2 0 (by decide) (by decide) (by norm_num)
    (by norm_num)
  refine ⟨?_, ?_⟩
  · have h5 := h.2.2.2.2.1
    simpa using h5
  · have h6 := h.2.2.2.2.2.1
    rw [if_neg (by norm_num)] at h6
    exact h6

/-- C10: a model built with `WithPageSize(p)` (applied last) has
`pageSize = max p 1`; a model built without that option keeps the default
`pageSize = 6`; and for every option list the constructed model's
`pageSize` is at least 1, so the divisor the model hands to
`GetPaginationDetails` during navigation can never be zero. -/
theorem withPageSize_spec (opts : List ModelOption) (p : Int) :
    (NewModel (opts ++ [ModelOption.withPageSize p])).pageSize = max p 1 ∧
    ((∀ q, ModelOption.withPageSize q ∉ opts) → (NewModel opts).pageSize = 6) ∧
    1 ≤ (NewModel opts).pageSize := by
  refine ⟨?_, fun h => ?_, ?_⟩
  · rw [newModel_pageSize, List.foldl_append]
    rfl
  · rw [newModel_pageSize, pageSize_foldl_of_not_mem _ _ h]
  · rw [newModel_pageSize]
    exact pageSize_foldl_ge_one _ _ (by norm_num)

/-- Witness for C10: `WithPageSize(-5)` yields pageSize 1; a model with only
a non-pageSize option keeps the default 6. -/
theorem withPageSize_spec_witness :
    (NewModel ([] ++ [ModelOption.withPageSize (-5)])).pageSize = max (-5) 1 ∧
    (NewModel [ModelOption.withStyles]).pageSize = 6 :=
  ⟨(withPageSize_spec [] (-5)).1,
    (withPageSize_spec [ModelOption.withStyles] 0).2.1 (fun q hq => by simp at hq)⟩

end Reportcard
